import Mathlib

/-!
Verification of the scheduler-bot core (event index builder, check-in
ledger, day-status and streak engines, meal-time configuration loader)
against its natural-language specification.

The Python code is shallowly embedded: database tables become lists of
row structures, SQLAlchemy queries become list filters, instants and
local dates become integers (epoch offsets), Python exceptions become
`Except`, and JSON configuration inputs are modelled at the parsed
level.  Each definition follows one function of the source tree
(quoted in its doc comment).
-/

/-! ## Data model (src/app/db.py) -/

/-- Row of the `checkins` table (src/app/db.py, class Checkin): key
columns (user_id, day, kind, ref), prompt instant and optional
response fields.  Dates and instants are modelled as integers. -/
structure Checkin where
  user_id : Int
  day : Int
  kind : String
  ref : String
  prompted_at : Int
  responded_at : Option Int
  response_text : Option String
  photo_file_id : Option String
deriving DecidableEq, Repr

/-- Row of the `daily_event_index` table (src/app/db.py, class
DailyEventIndex). -/
structure EventRow where
  user_id : Int
  day : Int
  event_number : Int
  google_event_id : String
  title : String
  start_dt : Int
  end_dt : Int
deriving DecidableEq, Repr

/-- Row of the `users` table (src/app/db.py, class User); only the
columns the verified core reads. -/
structure UserT where
  id : Int
  timezone : String
deriving DecidableEq, Repr

/-- The persistent store as seen by the day-status and streak engines:
the event-index partition rows and the check-in ledger rows. -/
structure DB where
  events : List EventRow
  checkins : List Checkin
deriving DecidableEq, Repr

/-! ## Day-status engine (src/app/services/streaks.py) -/

/-- Embeds `_required_daily_count` (streaks.py line 8): constant 3
(morning, run, winddown). -/
def required_daily_count : Nat := 3

/-- Embeds `_count_required_events` (streaks.py line 11): count of
DailyEventIndex rows with matching user and day. -/
def count_required_events (db : DB) (u : UserT) (day : Int) : Nat :=
  (db.events.filter (fun r => r.user_id == u.id && r.day == day)).length

/-- Embeds `_count_completed_daily` (streaks.py line 18): count of
`daily` check-ins with a response. -/
def count_completed_daily (db : DB) (u : UserT) (day : Int) : Nat :=
  (db.checkins.filter (fun c =>
    c.user_id == u.id && c.day == day && c.kind == "daily" &&
    c.responded_at.isSome)).length

/-- Embeds `_count_completed_event_photos` (streaks.py line 30): count
of `event` check-ins with a response that carries a photo or text. -/
def count_completed_event_photos (db : DB) (u : UserT) (day : Int) : Nat :=
  (db.checkins.filter (fun c =>
    c.user_id == u.id && c.day == day && c.kind == "event" &&
    c.responded_at.isSome &&
    (c.photo_file_id.isSome || c.response_text.isSome))).length

/-- Embeds the line `misses = max(0, required_total - completed_total)`
of `compute_day_status` (streaks.py line 51), on Python integers. -/
def missesCalc (required_total completed_total : Nat) : Int :=
  max 0 ((required_total : Int) - (completed_total : Int))

/-- Result dictionary of `compute_day_status` (streaks.py line 54). -/
structure DayStatus where
  day : Int
  required_events : Nat
  required_total : Nat
  completed_daily : Nat
  completed_event_photos : Nat
  completed_total : Nat
  misses : Int
  allowed_misses : Int
  honored : Bool
deriving DecidableEq, Repr

/-- Embeds `compute_day_status` (streaks.py line 43). -/
def compute_day_status (db : DB) (u : UserT) (day : Int)
    (allowed_misses : Int) : DayStatus :=
  let required_events := count_required_events db u day
  let required_total := required_daily_count + required_events
  let completed_daily := count_completed_daily db u day
  let completed_events := count_completed_event_photos db u day
  let completed_total := completed_daily + completed_events
  let misses := missesCalc required_total completed_total
  let honored := decide (misses ≤ allowed_misses)
  { day := day
    required_events := required_events
    required_total := required_total
    completed_daily := completed_daily
    completed_event_photos := completed_events
    completed_total := completed_total
    misses := misses
    allowed_misses := allowed_misses
    honored := honored }

/-! ## Sample databases used as concrete instances -/

/-- A responded `daily` check-in on the given day (response text only). -/
def respondedDaily (day : Int) (ref : String) : Checkin :=
  { user_id := 1, day := day, kind := "daily", ref := ref,
    prompted_at := 0, responded_at := some 10,
    response_text := some "ok", photo_file_id := none }

/-- A responded `event` check-in carrying response text. -/
def respondedEvent (day : Int) (ref : String) : Checkin :=
  { user_id := 1, day := day, kind := "event", ref := ref,
    prompted_at := 0, responded_at := some 10,
    response_text := some "pic", photo_file_id := none }

/-- An event-index row for user 1. -/
def sampleEvent (day : Int) (n : Int) (gid : String) : EventRow :=
  { user_id := 1, day := day, event_number := n, google_event_id := gid,
    title := "ev", start_dt := 100, end_dt := 200 }

/-- The sample user. -/
def sampleUser : UserT := { id := 1, timezone := "UTC" }

/-- Day with two calendar events (required_total = 5) and four
completed check-ins (3 daily + 1 event): one miss. -/
def dbFiveFour : DB :=
  { events := [sampleEvent 0 1 "g1", sampleEvent 0 2 "g2"]
    checkins := [respondedDaily 0 "morning", respondedDaily 0 "run",
                 respondedDaily 0 "winddown", respondedEvent 0 "g1"] }

/-- Day with two calendar events and only three completed check-ins:
two misses. -/
def dbFiveThree : DB :=
  { events := [sampleEvent 0 1 "g1", sampleEvent 0 2 "g2"]
    checkins := [respondedDaily 0 "morning", respondedDaily 0 "run",
                 respondedDaily 0 "winddown"] }

/-- Claim C2: compute_day_status returns required_total = 3 + (count of
event-index rows for the day), completed_total = responded daily count
plus responded event count with attachment or text, misses =
max(0, required_total - completed_total), honored = misses ≤
allowed_misses; the misses formula gives 0 (hence honored, for a
non-negative allowance) whenever required_total is 0; and with
allowed_misses = 1, required_total = 5 with completed_total = 4 is
honored while completed_total = 3 is not. -/
theorem compute_day_status_spec (db : DB) (u : UserT) (day : Int)
    (am : Int) (ham : 0 ≤ am) :
    (compute_day_status db u day am).required_total
        = 3 + count_required_events db u day
    ∧ (compute_day_status db u day am).completed_total
        = count_completed_daily db u day
          + count_completed_event_photos db u day
    ∧ (compute_day_status db u day am).misses
        = missesCalc (compute_day_status db u day am).required_total
            (compute_day_status db u day am).completed_total
    ∧ ((compute_day_status db u day am).honored = true
        ↔ (compute_day_status db u day am).misses ≤ am)
    ∧ (∀ c : Nat, missesCalc 0 c = 0 ∧ missesCalc 0 c ≤ am)
    ∧ (compute_day_status dbFiveFour sampleUser 0 1).required_total = 5
    ∧ (compute_day_status dbFiveFour sampleUser 0 1).completed_total = 4
    ∧ (compute_day_status dbFiveFour sampleUser 0 1).honored = true
    ∧ (compute_day_status dbFiveThree sampleUser 0 1).completed_total = 3
    ∧ (compute_day_status dbFiveThree sampleUser 0 1).honored = false := by
  refine ⟨rfl, rfl, rfl, ?_, ?_, by decide, by decide, by decide,
    by decide, by decide⟩
  · simp [compute_day_status]
  · intro c
    have h0 : missesCalc 0 c = 0 := by
      simp [missesCalc]
    exact ⟨h0, by rw [h0]; exact ham⟩

/-- Witness for compute_day_status_spec at concrete inputs. -/
theorem compute_day_status_spec_witness :
    (compute_day_status dbFiveFour sampleUser 0 1).honored = true :=
  (compute_day_status_spec dbFiveFour sampleUser 0 1 (by decide)).2.2.2.2.2.2.2.1

/-! ## Check-in ledger fire-once gate (src/app/scheduler.py) -/

/-- The (user, day, kind, reference) key predicate used by all three
ledger operations: it is the filter of `_checkin_exists`
(scheduler.py line 85) and of the uq_checkin uniqueness key
(db.py line 139). -/
def checkinKeyMatch (uid day : Int) (kind ref : String) (c : Checkin) : Bool :=
  c.user_id == uid && c.day == day && c.kind == kind && c.ref == ref

/-- Embeds `_checkin_exists` (scheduler.py line 85): does a record with
this key exist in the ledger? -/
def checkin_exists (cs : List Checkin) (uid day : Int) (kind ref : String) : Bool :=
  cs.any (checkinKeyMatch uid day kind ref)

/-- Embeds `_mark_checkin` (scheduler.py line 94): insert one prompted
record with the given key (response fields empty). -/
def mark_checkin (cs : List Checkin) (uid day : Int) (kind ref : String)
    (now : Int) : List Checkin :=
  cs ++ [{ user_id := uid, day := day, kind := kind, ref := ref,
           prompted_at := now, responded_at := none,
           response_text := none, photo_file_id := none }]

/-- The guard pattern at every prompt site of the scheduler
(scheduler.py lines 113-168, 181-185, 212-225): fire, i.e. insert the
prompted record, only when `_checkin_exists` is false; otherwise leave
the ledger unchanged. -/
def fire_if_absent (cs : List Checkin) (uid day : Int) (kind ref : String)
    (now : Int) : List Checkin :=
  if checkin_exists cs uid day kind ref then cs
  else mark_checkin cs uid day kind ref now

/-- Number of ledger records carrying a given key. -/
def countKey (cs : List Checkin) (uid day : Int) (kind ref : String) : Nat :=
  (cs.filter (checkinKeyMatch uid day kind ref)).length

theorem checkin_exists_false_iff (cs : List Checkin) (uid day : Int)
    (kind ref : String) :
    checkin_exists cs uid day kind ref = false
      ↔ countKey cs uid day kind ref = 0 := by
  simp [checkin_exists, countKey, List.any_eq_true, List.length_eq_zero,
    List.filter_eq_nil_iff]

theorem countKey_mark (cs : List Checkin) (uid day : Int)
    (kind ref : String) (now : Int) :
    countKey (mark_checkin cs uid day kind ref now) uid day kind ref
      = countKey cs uid day kind ref + 1 := by
  unfold countKey mark_checkin
  rw [List.filter_append, List.length_append]
  congr 1
  simp [checkinKeyMatch]

theorem countKey_fire_le (cs : List Checkin) (uid day : Int)
    (kind ref : String) (now : Int)
    (h : countKey cs uid day kind ref ≤ 1) :
    countKey (fire_if_absent cs uid day kind ref now) uid day kind ref ≤ 1 := by
  unfold fire_if_absent
  cases hex : checkin_exists cs uid day kind ref with
  | true => simpa using h
  | false =>
    have h0 := (checkin_exists_false_iff cs uid day kind ref).mp hex
    simp only [Bool.false_eq_true, if_false]
    rw [countKey_mark]
    omega

/-- Claim C1: a prompt fires only when no check-in record with the
(user, day, kind, reference) key exists yet (the ledger is unchanged
when one does), firing inserts exactly one record with that key, and
therefore any number of repeated tick evaluations starting from a
ledger without the key leave at most one prompted record for it. -/
theorem fire_once (cs : List Checkin) (uid day : Int) (kind ref : String)
    (now : Int) (n : Nat) :
    (checkin_exists cs uid day kind ref = true
      → fire_if_absent cs uid day kind ref now = cs)
    ∧ (checkin_exists cs uid day kind ref = false
      → countKey (fire_if_absent cs uid day kind ref now) uid day kind ref
          = countKey cs uid day kind ref + 1)
    ∧ (countKey cs uid day kind ref = 0
      → countKey
          (Nat.iterate (fun s => fire_if_absent s uid day kind ref now) n cs)
          uid day kind ref ≤ 1) := by
  refine ⟨?_, ?_, ?_⟩
  · intro h; simp [fire_if_absent, h]
  · intro h
    unfold fire_if_absent
    rw [h]
    simp only [Bool.false_eq_true, if_false]
    exact countKey_mark cs uid day kind ref now
  · intro h0
    induction n with
    | zero => rw [Function.iterate_zero_apply]; omega
    | succ m ih =>
      rw [Function.iterate_succ_apply']
      exact countKey_fire_le _ uid day kind ref now ih

/-- Witness for fire_once: starting from the empty ledger, three tick
evaluations leave exactly one prompted record for the key. -/
theorem fire_once_witness :
    countKey
      (Nat.iterate (fun s => fire_if_absent s 1 0 "daily" "morning" 5) 3 [])
      1 0 "daily" "morning" ≤ 1 :=
  (fire_once [] 1 0 "daily" "morning" 5 3).2.2 (by decide)

/-! ## Streak engine (src/app/services/streaks.py, compute_streak) -/

/-- Whether a day is honored, per `compute_day_status` — the per-day
test of the streak loop (streaks.py line 76). -/
def dayHonored (db : DB) (u : UserT) (am : Int) (d : Int) : Bool :=
  (compute_day_status db u d am).honored

/-- Embeds the `for i in range(365)` loop of `compute_streak`
(streaks.py lines 74-85): `fuel` counts the remaining iterations, `i`
the Python loop index, `d` the scanned day.  On an honored day the
current run and best are bumped; on an unhonored day best is flushed
and the loop breaks when `i == 0`, otherwise the run resets and the
scan continues. -/
def streakGo (h : Int → Bool) : Nat → Nat → Int → Nat → Nat → Nat × Nat
  | 0, _, _, cur, best => (cur, best)
  | fuel + 1, i, d, cur, best =>
    if h d then streakGo h fuel (i + 1) (d - 1) (cur + 1) (max best (cur + 1))
    else if i == 0 then (0, max best cur)
    else streakGo h fuel (i + 1) (d - 1) 0 (max best cur)

/-- Embeds `compute_streak` (streaks.py line 66). -/
def compute_streak (db : DB) (u : UserT) (end_day : Int) (am : Int) :
    Nat × Nat :=
  streakGo (dayHonored db u am) 365 0 end_day 0 0

/-! ## The duplicate streak engine in src/app/bot.py -/

/-- Result dictionary of bot.py's `compute_day_status` (bot.py line
126); it additionally reports the constant required_daily. -/
structure BotDayStatus where
  day : Int
  required_daily : Nat
  required_events : Nat
  required_total : Nat
  completed_daily : Nat
  completed_event_photos : Nat
  completed_total : Nat
  misses : Int
  allowed_misses : Int
  honored : Bool
deriving DecidableEq, Repr

/-- Embeds `_count_required_events` of bot.py (line 71). -/
def bot_count_required_events (db : DB) (u : UserT) (day : Int) : Nat :=
  (db.events.filter (fun r => r.user_id == u.id && r.day == day)).length

/-- Embeds `_count_completed_event_photos` of bot.py (line 82). -/
def bot_count_completed_event_photos (db : DB) (u : UserT) (day : Int) : Nat :=
  (db.checkins.filter (fun c =>
    c.user_id == u.id && c.day == day && c.kind == "event" &&
    c.responded_at.isSome &&
    (c.photo_file_id.isSome || c.response_text.isSome))).length

/-- Embeds `_count_completed_daily` of bot.py (line 106). -/
def bot_count_completed_daily (db : DB) (u : UserT) (day : Int) : Nat :=
  (db.checkins.filter (fun c =>
    c.user_id == u.id && c.day == day && c.kind == "daily" &&
    c.responded_at.isSome)).length

/-- Embeds bot.py's `compute_day_status` (line 126); `am` stands for
the module-level configuration constant ALLOWED_MISSES_PER_DAY it
reads. -/
def bot_compute_day_status (am : Int) (db : DB) (u : UserT) (day : Int) :
    BotDayStatus :=
  let required_events := bot_count_required_events db u day
  let required_total := 3 + required_events
  let completed_daily := bot_count_completed_daily db u day
  let completed_events := bot_count_completed_event_photos db u day
  let completed_total := completed_daily + completed_events
  let misses := max 0 ((required_total : Int) - (completed_total : Int))
  let honored := decide (misses ≤ am)
  { day := day
    required_daily := 3
    required_events := required_events
    required_total := required_total
    completed_daily := completed_daily
    completed_event_photos := completed_events
    completed_total := completed_total
    misses := misses
    allowed_misses := am
    honored := honored }

/-- Embeds the loop of bot.py's `compute_streak` (lines 163-179): the
else branch there runs `best = max(best, cur); cur = 0` and then
breaks if `i == 0`. -/
def botStreakGo (h : Int → Bool) : Nat → Nat → Int → Nat → Nat → Nat × Nat
  | 0, _, _, cur, best => (cur, best)
  | fuel + 1, i, d, cur, best =>
    if h d then botStreakGo h fuel (i + 1) (d - 1) (cur + 1) (max best (cur + 1))
    else if i == 0 then (0, max best cur)
    else botStreakGo h fuel (i + 1) (d - 1) 0 (max best cur)

/-- Embeds bot.py's `compute_streak` (line 157). -/
def bot_compute_streak (am : Int) (db : DB) (u : UserT) (end_day : Int) :
    Nat × Nat :=
  botStreakGo (fun d => (bot_compute_day_status am db u d).honored)
    365 0 end_day 0 0

theorem bot_dayHonored_eq (am : Int) (db : DB) (u : UserT) (d : Int) :
    (bot_compute_day_status am db u d).honored = dayHonored db u am d := rfl

theorem botStreakGo_eq_streakGo (h : Int → Bool) (fuel : Nat) :
    ∀ i d cur best,
      botStreakGo h fuel i d cur best = streakGo h fuel i d cur best := by
  induction fuel with
  | zero => intro i d cur best; rfl
  | succ m ih =>
    intro i d cur best
    simp only [botStreakGo, streakGo]
    by_cases hd : h d
    · simp [hd, ih]
    · simp only [hd, Bool.false_eq_true, if_false]
      by_cases hi : i = 0
      · simp [hi]
      · simp [hi, ih]

/-- Claim C9: the two streak implementations coincide — for every
database state, user and end day, bot.py's compute_streak (reading the
configured ALLOWED_MISSES_PER_DAY) equals services/streaks.py's
compute_streak called with that allowance. -/
theorem bot_compute_streak_eq (am : Int) (db : DB) (u : UserT)
    (end_day : Int) :
    bot_compute_streak am db u end_day = compute_streak db u end_day am := by
  unfold bot_compute_streak compute_streak
  rw [botStreakGo_eq_streakGo]
  congr 1

theorem streakGo_bounds (h : Int → Bool) (fuel : Nat) :
    ∀ i d cur best, cur ≤ best →
      (streakGo h fuel i d cur best).1 ≤ (streakGo h fuel i d cur best).2
      ∧ (streakGo h fuel i d cur best).2 ≤ max best (cur + fuel) := by
  induction fuel with
  | zero =>
    intro i d cur best hcb
    simp only [streakGo]
    exact ⟨hcb, by omega⟩
  | succ m ih =>
    intro i d cur best hcb
    simp only [streakGo]
    by_cases hd : h d
    · simp only [hd, if_true]
      have h2 := ih (i + 1) (d - 1) (cur + 1) (max best (cur + 1)) (by omega)
      exact ⟨h2.1, by omega⟩
    · simp only [hd, Bool.false_eq_true, if_false]
      by_cases hi : i = 0
      · simp only [hi, beq_self_eq_true, if_true]
        exact ⟨by omega, by omega⟩
      · have hne : (i == 0) = false := by simp [hi]
        simp only [hne, Bool.false_eq_true, if_false]
        have h2 := ih (i + 1) (d - 1) 0 (max best cur) (by omega)
        exact ⟨h2.1, by omega⟩

/-- Claim C10: for every user, end day and database state,
compute_streak returns a pair (current, best) with
current ≤ best ≤ 365. -/
theorem compute_streak_bounds (db : DB) (u : UserT) (end_day : Int)
    (am : Int) :
    (compute_streak db u end_day am).1 ≤ (compute_streak db u end_day am).2
    ∧ (compute_streak db u end_day am).2 ≤ 365 := by
  have h := streakGo_bounds (dayHonored db u am) 365 0 end_day 0 0
    (Nat.le_refl 0)
  exact ⟨h.1, by simpa using h.2⟩

/-! ## Run-length functions used to specify the streak scan

`scanList` is the sequence of honored bits the loop inspects, newest
day first; `prefixRun`, `suffixRun` and `maxRun` are independent
descriptions of runs of honored days inside that window. -/

/-- The 365 honored bits examined by the scan, for days
end_day, end_day - 1, ..., end_day - (n-1). -/
def scanList (h : Int → Bool) (d : Int) (n : Nat) : List Bool :=
  (List.range n).map (fun k : Nat => h (d - (k : Int)))

/-- Length of the leading all-true block. -/
def prefixRun : List Bool → Nat
  | [] => 0
  | b :: l => if b then prefixRun l + 1 else 0

/-- Length of the trailing all-true block. -/
def suffixRun (l : List Bool) : Nat := prefixRun l.reverse

/-- Length of the longest contiguous all-true block: the maximum, over
every start position, of the run beginning there. -/
def maxRun : List Bool → Nat
  | [] => 0
  | b :: l => max (prefixRun (b :: l)) (maxRun l)

/-- The pure accumulator recursion equivalent to the loop body once
the `i == 0` break can no longer trigger. -/
def runFold : List Bool → Nat → Nat → Nat × Nat
  | [], cur, best => (cur, best)
  | b :: l, cur, best =>
    if b then runFold l (cur + 1) (max best (cur + 1))
    else runFold l 0 (max best cur)

theorem scanList_zero (h : Int → Bool) (d : Int) : scanList h d 0 = [] := rfl

theorem scanList_succ (h : Int → Bool) (d : Int) (n : Nat) :
    scanList h d (n + 1) = h d :: scanList h (d - 1) n := by
  unfold scanList
  rw [List.range_succ_eq_map]
  rw [List.map_cons, List.map_map]
  congr 1
  · norm_num
  · apply List.map_congr_left
    intro a _
    simp only [Function.comp_apply]
    congr 1
    push_cast
    ring

theorem scanList_length (h : Int → Bool) (d : Int) (n : Nat) :
    (scanList h d n).length = n := by
  unfold scanList
  rw [List.length_map, List.length_range]

theorem streakGo_succ (h : Int → Bool) (fuel i : Nat) (d : Int)
    (cur best : Nat) :
    streakGo h (fuel + 1) i d cur best
      = if h d then
          streakGo h fuel (i + 1) (d - 1) (cur + 1) (max best (cur + 1))
        else if i == 0 then (0, max best cur)
        else streakGo h fuel (i + 1) (d - 1) 0 (max best cur) := rfl

theorem streakGo_eq_runFold (h : Int → Bool) (fuel : Nat) :
    ∀ i d cur best,
      streakGo h fuel (i + 1) d cur best
        = runFold (scanList h d fuel) cur best := by
  induction fuel with
  | zero => intro i d cur best; rfl
  | succ m ih =>
    intro i d cur best
    rw [scanList_succ]
    simp only [streakGo, runFold]
    by_cases hd : h d
    · simp [hd, ih]
    · simp [hd, ih]

theorem prefixRun_append (l1 l2 : List Bool) :
    prefixRun (l1 ++ l2)
      = if l1.all (fun b => b) then l1.length + prefixRun l2
        else prefixRun l1 := by
  induction l1 with
  | nil => simp [prefixRun]
  | cons b l ih =>
    cases b with
    | true =>
      rw [List.cons_append]
      simp only [prefixRun, if_true, List.all_cons, Bool.true_and,
        List.length_cons]
      rw [ih]
      by_cases hall : l.all (fun b => b) = true
      · rw [if_pos hall, if_pos hall]; omega
      · rw [if_neg hall, if_neg hall]
    | false =>
      rw [List.cons_append]
      simp [prefixRun]

theorem prefixRun_le_length (l : List Bool) : prefixRun l ≤ l.length := by
  induction l with
  | nil => simp [prefixRun]
  | cons b l ih =>
    cases b with
    | true => simp only [prefixRun, if_true, List.length_cons]; omega
    | false => simp [prefixRun]

theorem maxRun_le_length (l : List Bool) : maxRun l ≤ l.length := by
  induction l with
  | nil => simp [maxRun]
  | cons b l ih =>
    simp only [maxRun, List.length_cons, max_le_iff]
    exact ⟨prefixRun_le_length _, by omega⟩

theorem prefixRun_le_maxRun (l : List Bool) : prefixRun l ≤ maxRun l := by
  cases l with
  | nil => simp [prefixRun, maxRun]
  | cons b l => simp only [maxRun]; exact le_max_left _ _

theorem suffixRun_cons (b : Bool) (l : List Bool) :
    suffixRun (b :: l)
      = if l.all (fun x => x) then l.length + (if b then 1 else 0)
        else suffixRun l := by
  unfold suffixRun
  rw [List.reverse_cons, prefixRun_append]
  simp only [List.all_reverse, List.length_reverse]
  cases b with
  | true => simp [prefixRun]
  | false => simp [prefixRun]

theorem all_replicate_true (n : Nat) :
    (List.replicate n true).all (fun b => b) = true := by
  simp [List.all_eq_true]

theorem prefixRun_replicate_append (n : Nat) (l : List Bool) :
    prefixRun (List.replicate n true ++ l) = n + prefixRun l := by
  rw [prefixRun_append, all_replicate_true]
  simp

theorem le_maxRun_replicate (n : Nat) (l : List Bool) :
    n ≤ maxRun (List.replicate n true ++ l) := by
  have h1 := prefixRun_le_maxRun (List.replicate n true ++ l)
  rw [prefixRun_replicate_append] at h1
  omega

theorem replicate_append_cons (n : Nat) (l : List Bool) :
    List.replicate n true ++ true :: l
      = List.replicate (n + 1) true ++ l := by
  rw [List.replicate_succ']
  simp

theorem maxRun_replicate_false (n : Nat) (l : List Bool) :
    maxRun (List.replicate n true ++ false :: l)
      = max n (maxRun l) := by
  induction n with
  | zero => simp [maxRun, prefixRun]
  | succ m ih =>
    rw [List.replicate_succ, List.cons_append]
    simp [maxRun, prefixRun, ih, prefixRun_replicate_append]
    omega

theorem maxRun_replicate (n : Nat) :
    maxRun (List.replicate n true) = n := by
  have h1 : n ≤ maxRun (List.replicate n true) := by
    have := le_maxRun_replicate n []
    simpa using this
  have h2 := maxRun_le_length (List.replicate n true)
  simp only [List.length_replicate] at h2
  omega

theorem runFold_spec :
    ∀ (l : List Bool) (cur best : Nat), cur ≤ best →
      runFold l cur best
        = (if l.all (fun b => b) then cur + l.length else suffixRun l,
           max best (maxRun (List.replicate cur true ++ l))) := by
  intro l
  induction l with
  | nil =>
    intro cur best hcb
    simp only [runFold, List.all_nil, if_true, List.length_nil,
      List.append_nil, maxRun_replicate]
    have hb : max best cur = best := by omega
    rw [hb]
    simp
  | cons b l ih =>
    intro cur best hcb
    cases b with
    | true =>
      simp only [runFold, if_true]
      rw [ih (cur + 1) (max best (cur + 1)) (le_max_right _ _)]
      rw [replicate_append_cons]
      have hge := le_maxRun_replicate (cur + 1) l
      have hmax : max (max best (cur + 1))
          (maxRun (List.replicate (cur + 1) true ++ l))
          = max best (maxRun (List.replicate (cur + 1) true ++ l)) := by
        omega
      rw [hmax]
      simp only [List.all_cons, Bool.true_and, List.length_cons]
      by_cases hall : l.all (fun x => x)
      · simp only [hall, if_true]
        have : cur + 1 + l.length = cur + (l.length + 1) := by omega
        rw [this]
      · simp only [hall, Bool.false_eq_true, if_false]
        rw [suffixRun_cons]
        simp [hall]
    | false =>
      simp only [runFold, Bool.false_eq_true, if_false]
      rw [ih 0 (max best cur) (Nat.zero_le _)]
      rw [maxRun_replicate_false]
      simp only [List.replicate, List.nil_append, List.all_cons,
        Bool.false_and, Bool.false_eq_true, if_false, List.length_cons]
      rw [suffixRun_cons]
      have hmax : max (max best cur) (maxRun l)
          = max best (max cur (maxRun l)) := by omega
      rw [hmax]
      by_cases hall : l.all (fun x => x)
      · simp [hall]
      · simp [hall]

/-- Claim C3 (amended): compute_streak scans backward from end_day for
up to 365 days.  If end_day itself is not honored the scan stops
immediately and returns (0, 0) — best does not account for runs on
earlier days.  If end_day is honored, all 365 days are scanned and the
result is (current, best) over the window end_day-364..end_day, where
best is the maximum contiguous honored run in the window and current
is the length of the all-honored suffix of the backward scan (the
honored run touching the oldest day of the window), which equals the
run ending at end_day only when no earlier gap resets the counter. -/
theorem nat365 : (365 : Nat) = 364 + 1 := rfl

theorem compute_streak_characterization (db : DB) (u : UserT)
    (end_day am : Int) :
    compute_streak db u end_day am
      = (if dayHonored db u am end_day then
           (suffixRun (scanList (dayHonored db u am) end_day 365),
            maxRun (scanList (dayHonored db u am) end_day 365))
         else (0, 0)) := by
  have hscan : scanList (dayHonored db u am) end_day 365
      = dayHonored db u am end_day
        :: scanList (dayHonored db u am) (end_day - 1) 364 :=
    scanList_succ _ _ 364
  by_cases hd : dayHonored db u am end_day = true
  · rw [if_pos hd]
    have hstep : compute_streak db u end_day am
        = streakGo (dayHonored db u am) 364 1 (end_day - 1) 1 1 := by
      unfold compute_streak
      rw [nat365, streakGo_succ, hd]
      norm_num
    rw [hstep]
    have hr := streakGo_eq_runFold (dayHonored db u am) 364 0
      (end_day - 1) 1 1
    norm_num at hr
    rw [hr]
    rw [runFold_spec _ 1 1 (le_refl 1)]
    rw [hscan, hd]
    have hrep : List.replicate 1 true
        ++ scanList (dayHonored db u am) (end_day - 1) 364
        = true :: scanList (dayHonored db u am) (end_day - 1) 364 := by
      simp [List.replicate]
    rw [hrep]
    have h1 : (1 : Nat)
        ≤ maxRun (true :: scanList (dayHonored db u am) (end_day - 1) 364) := by
      have hp := prefixRun_le_maxRun
        (true :: scanList (dayHonored db u am) (end_day - 1) 364)
      have hpr : prefixRun
          (true :: scanList (dayHonored db u am) (end_day - 1) 364)
          = prefixRun (scanList (dayHonored db u am) (end_day - 1) 364)
            + 1 := rfl
      rw [hpr] at hp
      omega
    have h2 : max 1 (maxRun
          (true :: scanList (dayHonored db u am) (end_day - 1) 364))
        = maxRun (true :: scanList (dayHonored db u am) (end_day - 1) 364) := by
      omega
    rw [h2, suffixRun_cons]
    by_cases hall : (scanList (dayHonored db u am) (end_day - 1) 364).all
        (fun x => x) = true
    · rw [if_pos hall, if_pos hall]
      simp only [if_true]
      have h3 : 1 + (scanList (dayHonored db u am) (end_day - 1) 364).length
          = (scanList (dayHonored db u am) (end_day - 1) 364).length + 1 := by
        omega
      rw [h3]
    · rw [if_neg hall, if_neg hall]
  · rw [if_neg hd]
    have hd' : dayHonored db u am end_day = false := by
      cases hx : dayHonored db u am end_day
      · rfl
      · exact absurd hx hd
    unfold compute_streak
    rw [nat365, streakGo_succ, hd']
    norm_num

/-- Database with days -1..-4 fully honored (three responded daily
check-ins each, no events) and day 0 empty (not honored). -/
def streakExDb : DB :=
  { events := []
    checkins :=
      [respondedDaily (-1) "morning", respondedDaily (-1) "run",
       respondedDaily (-1) "winddown",
       respondedDaily (-2) "morning", respondedDaily (-2) "run",
       respondedDaily (-2) "winddown",
       respondedDaily (-3) "morning", respondedDaily (-3) "run",
       respondedDaily (-3) "winddown",
       respondedDaily (-4) "morning", respondedDaily (-4) "run",
       respondedDaily (-4) "winddown"] }

/-- Claim C3 counterexample: with days D-4..D-1 honored and day D = 0
not honored, compute_streak(D) returns (0, 0), not (0, 4) — when the
end day is not honored the loop breaks before scanning the earlier
days, so best does not report the 4-day run the claim promises. -/
theorem compute_streak_claim_counterexample :
    dayHonored streakExDb sampleUser 1 (-1) = true
    ∧ dayHonored streakExDb sampleUser 1 (-2) = true
    ∧ dayHonored streakExDb sampleUser 1 (-3) = true
    ∧ dayHonored streakExDb sampleUser 1 (-4) = true
    ∧ dayHonored streakExDb sampleUser 1 0 = false
    ∧ compute_streak streakExDb sampleUser 0 1 = (0, 0)
    ∧ ¬ compute_streak streakExDb sampleUser 0 1 = (0, 4) := by
  decide

/-! ## Calendar pipeline (src/app/services/gcal.py, src/app/commands.py) -/

/-- Transient calendar occurrence (gcal.py, dataclass CalEvent):
instants as integers. -/
structure CalEvent where
  event_id : String
  title : String
  start_utc : Int
  end_utc : Int
  source : String
deriving DecidableEq, Repr

/-- The dedup key of gcal.py line 192: the triple
(start instant, end instant, title). -/
def eventKey (e : CalEvent) : Int × Int × String :=
  (e.start_utc, e.end_utc, e.title)

/-- Embeds the dedup loop of `fetch_events_for_day_multi_ics`
(gcal.py lines 189-196): keep the first occurrence of each key,
tracking seen keys. -/
def dedupeGo (seen : List (Int × Int × String)) :
    List CalEvent → List CalEvent
  | [] => []
  | e :: rest =>
    if eventKey e ∈ seen then dedupeGo seen rest
    else e :: dedupeGo (eventKey e :: seen) rest

/-- Dedup starting from an empty seen set. -/
def dedupeEvents (l : List CalEvent) : List CalEvent := dedupeGo [] l

/-- The ordering used by `sort(key=lambda e: e.start_utc)`
(gcal.py line 198, commands.py line 392): ascending start instant and
nothing else. -/
def startLe (a b : CalEvent) : Prop := a.start_utc ≤ b.start_utc

instance : DecidableRel startLe := fun a b =>
  inferInstanceAs (Decidable (a.start_utc ≤ b.start_utc))

instance : IsTotal CalEvent startLe :=
  ⟨fun a b => Int.le_total a.start_utc b.start_utc⟩

instance : IsTrans CalEvent startLe :=
  ⟨fun _ _ _ hab hbc => le_trans hab hbc⟩

/-- Python's `list.sort`/`sorted` is a stable sort on the given key;
stable insertion sort models it. -/
def sortEventsByStart (l : List CalEvent) : List CalEvent :=
  List.insertionSort startLe l

/-- The merge step of `fetch_events_for_day_multi_ics` applied to the
concatenated source results: dedupe, then sort ascending by start
(gcal.py lines 188-199). -/
def mergeEvents (all : List CalEvent) : List CalEvent :=
  sortEventsByStart (dedupeEvents all)

/-- Embeds the source loop of `fetch_events_for_day_multi_ics`
(gcal.py lines 184-186): `all_events.extend(_events_from_one_ics(...))`
per (source, url) item of the configured dict, in iteration order.
`fetchOne url source` models `_events_from_one_ics` together with the
network download and ICS parsing it performs; a raised exception is an
`Except.error`, and — as in the source, which has no try/except here —
it aborts the whole loop. -/
def gatherEvents
    (fetchOne : String → String → Except String (List CalEvent)) :
    List (String × String) → Except String (List CalEvent)
  | [] => .ok []
  | su :: rest =>
    match fetchOne su.2 su.1 with
    | .error e => .error e
    | .ok evs =>
      match gatherEvents fetchOne rest with
      | .error e => .error e
      | .ok more => .ok (evs ++ more)

/-- Embeds `fetch_events_for_day_multi_ics` (gcal.py line 181):
gather from every configured source, then dedupe and sort. -/
def fetch_events_for_day_multi_ics
    (urls : List (String × String))
    (fetchOne : String → String → Except String (List CalEvent)) :
    Except String (List CalEvent) :=
  match gatherEvents fetchOne urls with
  | .error e => .error e
  | .ok all => .ok (mergeEvents all)

/-- Whether a fetch outcome is a raised exception. -/
def exceptIsError : Except String (List CalEvent) → Bool
  | .error _ => true
  | .ok _ => false

/-- Embeds the `enumerate(events_sorted, start=i)` insertion loop of
`_build_daily_event_index` (commands.py lines 393-402): one
DailyEventIndex row per event, ordinals counted up from `i`, title
suffixed with the source label as in the code. -/
def numberRows (uid day : Int) : Nat → List CalEvent → List EventRow
  | _, [] => []
  | i, e :: rest =>
    { user_id := uid, day := day, event_number := (i : Int),
      google_event_id := e.event_id,
      title := e.title ++ " [" ++ e.source ++ "]",
      start_dt := e.start_utc, end_dt := e.end_utc }
      :: numberRows uid day (i + 1) rest

/-- The (user, day) partition predicate of the delete-then-reinsert
transaction (commands.py line 390). -/
def isPartitionRow (uid day : Int) (r : EventRow) : Bool :=
  r.user_id == uid && r.day == day

/-- Embeds `_build_daily_event_index` (commands.py line 384) given the
fetched events: delete every row of the (user, day) partition, sort
the events ascending by start, insert rows numbered from 1. -/
def build_daily_event_index (rows : List EventRow) (uid day : Int)
    (events : List CalEvent) : List EventRow :=
  rows.filter (fun r => !(isPartitionRow uid day r))
    ++ numberRows uid day 1 (sortEventsByStart events)

theorem numberRows_map_start (uid day : Int) :
    ∀ (es : List CalEvent) (i : Nat),
      (numberRows uid day i es).map (fun r => r.start_dt)
        = es.map (fun e => e.start_utc) := by
  intro es
  induction es with
  | nil => intro i; rfl
  | cons e rest ih =>
    intro i
    simp only [numberRows, List.map_cons, ih (i + 1)]

theorem numberRows_map_triple (uid day : Int) :
    ∀ (es : List CalEvent) (i : Nat),
      (numberRows uid day i es).map
          (fun r => (r.google_event_id, r.start_dt, r.end_dt))
        = es.map (fun e => (e.event_id, e.start_utc, e.end_utc)) := by
  intro es
  induction es with
  | nil => intro i; rfl
  | cons e rest ih =>
    intro i
    simp only [numberRows, List.map_cons, ih (i + 1)]

theorem numberRows_map_number (uid day : Int) :
    ∀ (es : List CalEvent) (i : Nat),
      (numberRows uid day i es).map (fun r => r.event_number)
        = (List.range es.length).map (fun k : Nat => (i : Int) + (k : Int)) := by
  intro es
  induction es with
  | nil => intro i; rfl
  | cons e rest ih =>
    intro i
    simp only [numberRows, List.map_cons, List.length_cons]
    rw [List.range_succ_eq_map, List.map_cons, List.map_map, ih (i + 1)]
    congr 1
    apply List.map_congr_left
    intro a _
    simp only [Function.comp_apply]
    push_cast
    ring

theorem numberRows_all_partition (uid day : Int) :
    ∀ (es : List CalEvent) (i : Nat),
      (numberRows uid day i es).filter (isPartitionRow uid day)
        = numberRows uid day i es := by
  intro es
  induction es with
  | nil => intro i; rfl
  | cons e rest ih =>
    intro i
    simp only [numberRows, List.filter_cons]
    have hp : isPartitionRow uid day
        { user_id := uid, day := day, event_number := (i : Int),
          google_event_id := e.event_id,
          title := e.title ++ " [" ++ e.source ++ "]",
          start_dt := e.start_utc, end_dt := e.end_utc } = true := by
      simp [isPartitionRow]
    rw [hp]
    simp only [if_true]
    rw [ih (i + 1)]

theorem filter_not_filter (uid day : Int) (rows : List EventRow) :
    (rows.filter (fun r => !(isPartitionRow uid day r))).filter
        (isPartitionRow uid day) = [] := by
  induction rows with
  | nil => rfl
  | cons r rest ih =>
    simp only [List.filter_cons]
    cases h : isPartitionRow uid day r
    · simp only [Bool.not_false, if_true, List.filter_cons, h,
        Bool.false_eq_true, if_false]
      exact ih
    · simp only [Bool.not_true, Bool.false_eq_true, if_false]
      exact ih

/-- Claim C4: after a rebuild of the event index for (user, day), the
rows of that partition are exactly the fetched event list, numbered by
a contiguous ordinal sequence 1..N assigned in ascending start-time
order, and every previously present row of the partition is gone (full
replace): the partition content equals the freshly numbered sorted
list, its ordinals are [1, ..., N] for N = number of fetched events,
its start instants are pairwise ascending, its
(occurrence id, start, end) triples are a permutation of the fetched
events, and an old partition row survives only if it coincides with
one of the new rows. -/
theorem build_daily_event_index_spec (rows : List EventRow)
    (uid day : Int) (events : List CalEvent) :
    (build_daily_event_index rows uid day events).filter
        (isPartitionRow uid day)
      = numberRows uid day 1 (sortEventsByStart events)
    ∧ ((build_daily_event_index rows uid day events).filter
        (isPartitionRow uid day)).map (fun r => r.event_number)
      = (List.range events.length).map (fun k : Nat => (1 : Int) + (k : Int))
    ∧ List.Pairwise (fun a b => a.start_dt ≤ b.start_dt)
        ((build_daily_event_index rows uid day events).filter
          (isPartitionRow uid day))
    ∧ List.Perm
        (((build_daily_event_index rows uid day events).filter
          (isPartitionRow uid day)).map
            (fun r => (r.google_event_id, r.start_dt, r.end_dt)))
        (events.map (fun e => (e.event_id, e.start_utc, e.end_utc)))
    ∧ (∀ r ∈ rows, isPartitionRow uid day r = true
        → r ∈ build_daily_event_index rows uid day events
        → r ∈ numberRows uid day 1 (sortEventsByStart events)) := by
  have hpart : (build_daily_event_index rows uid day events).filter
      (isPartitionRow uid day)
      = numberRows uid day 1 (sortEventsByStart events) := by
    unfold build_daily_event_index
    rw [List.filter_append, filter_not_filter, List.nil_append,
      numberRows_all_partition]
  have hperm : List.Perm (sortEventsByStart events) events :=
    List.perm_insertionSort startLe events
  have hlen : (sortEventsByStart events).length = events.length :=
    hperm.length_eq
  have hsorted : List.Pairwise startLe (sortEventsByStart events) :=
    List.sorted_insertionSort startLe events
  refine ⟨hpart, ?_, ?_, ?_, ?_⟩
  · rw [hpart, numberRows_map_number, hlen]
    norm_num
  · rw [hpart]
    have h1 : List.Pairwise (fun x y : Int => x ≤ y)
        ((numberRows uid day 1 (sortEventsByStart events)).map
          (fun r => r.start_dt)) := by
      rw [numberRows_map_start]
      exact List.Pairwise.map _ (fun a b h => h) hsorted
    exact List.Pairwise.of_map (fun r : EventRow => r.start_dt)
      (fun a b h => h) h1
  · rw [hpart, numberRows_map_triple]
    exact hperm.map _
  · intro r hr hp hin
    have hmem : r ∈ (build_daily_event_index rows uid day events).filter
        (isPartitionRow uid day) := List.mem_filter.mpr ⟨hin, hp⟩
    rw [hpart] at hmem
    exact hmem

/-! ## Source failure behaviour of the multi-source fetch (C5) -/

theorem gatherEvents_error
    (fetchOne : String → String → Except String (List CalEvent)) :
    ∀ urls : List (String × String),
      (∃ su ∈ urls, exceptIsError (fetchOne su.2 su.1) = true)
      → exceptIsError (gatherEvents fetchOne urls) = true := by
  intro urls
  induction urls with
  | nil => intro h; obtain ⟨su, hsu, _⟩ := h; exact absurd hsu (by simp)
  | cons su rest ih =>
    intro h
    simp only [gatherEvents]
    cases hfirst : fetchOne su.2 su.1 with
    | error e => rfl
    | ok evs =>
      have hrest : ∃ x ∈ rest, exceptIsError (fetchOne x.2 x.1) = true := by
        obtain ⟨x, hx, hxe⟩ := h
        rcases List.mem_cons.mp hx with hx1 | hx2
        · subst hx1
          rw [hfirst] at hxe
          exact absurd hxe (by simp [exceptIsError])
        · exact ⟨x, hx2, hxe⟩
      have hr := ih hrest
      cases hg : gatherEvents fetchOne rest with
      | error e => rfl
      | ok more =>
        rw [hg] at hr
        exact absurd hr (by simp [exceptIsError])

theorem gatherEvents_ok
    (fetchOne : String → String → Except String (List CalEvent)) :
    ∀ urls : List (String × String),
      (∀ su ∈ urls, exceptIsError (fetchOne su.2 su.1) = false)
      → ∃ l, gatherEvents fetchOne urls = .ok l := by
  intro urls
  induction urls with
  | nil => intro _; exact ⟨[], rfl⟩
  | cons su rest ih =>
    intro h
    simp only [gatherEvents]
    cases hfirst : fetchOne su.2 su.1 with
    | error e =>
      have := h su (List.mem_cons_self su rest)
      rw [hfirst] at this
      exact absurd this (by simp [exceptIsError])
    | ok evs =>
      obtain ⟨l, hl⟩ := ih (fun x hx => h x (List.mem_cons_of_mem su hx))
      rw [hl]
      exact ⟨evs ++ l, rfl⟩

/-- Claim C5 (amended): the source loop has no per-source error
handling — if any configured calendar source is unreachable or returns
malformed data, the whole fetch_events_for_day_multi_ics call raises
(the healthy sources' occurrences are discarded and the rebuild
aborts); only when every source succeeds does it return the merged
occurrence list. -/
theorem fetch_multi_error_propagates
    (urls : List (String × String))
    (fetchOne : String → String → Except String (List CalEvent))
    (h : ∃ su ∈ urls, exceptIsError (fetchOne su.2 su.1) = true) :
    exceptIsError (fetch_events_for_day_multi_ics urls fetchOne) = true
    ∧ ∀ l, fetch_events_for_day_multi_ics urls fetchOne ≠ .ok l := by
  have hg := gatherEvents_error fetchOne urls h
  constructor
  · unfold fetch_events_for_day_multi_ics
    cases hge : gatherEvents fetchOne urls with
    | error e => rfl
    | ok all =>
      rw [hge] at hg
      exact absurd hg (by simp [exceptIsError])
  · intro l hcontra
    unfold fetch_events_for_day_multi_ics at hcontra
    cases hge : gatherEvents fetchOne urls with
    | error e => rw [hge] at hcontra; exact absurd hcontra (by simp)
    | ok all =>
      rw [hge] at hg
      exact absurd hg (by simp [exceptIsError])

/-- The single event offered by the healthy source in the concrete
partial-failure scenario. -/
def healthyEvent : CalEvent :=
  { event_id := "good:1", title := "t", start_utc := 100, end_utc := 200,
    source := "good" }

/-- Concrete fetch behaviour: source url "u1" succeeds with one event,
anything else raises. -/
def exFetchOne : String → String → Except String (List CalEvent) :=
  fun url _ => if url == "u1" then .ok [healthyEvent]
               else .error "connection failed"

/-- The two configured sources of the scenario, in iteration order. -/
def exUrls : List (String × String) := [("good", "u1"), ("bad", "u2")]

/-- Claim C5 counterexample: with one healthy source (one occurrence)
and one failing source, fetch_events_for_day_multi_ics raises instead
of returning the healthy source's occurrences. -/
theorem fetch_multi_partial_failure_counterexample :
    exFetchOne "u1" "good" = .ok [healthyEvent]
    ∧ exceptIsError (exFetchOne "u2" "bad") = true
    ∧ fetch_events_for_day_multi_ics exUrls exFetchOne
        = .error "connection failed"
    ∧ fetch_events_for_day_multi_ics exUrls exFetchOne
        ≠ .ok [healthyEvent] := by
  refine ⟨rfl, rfl, rfl, ?_⟩
  intro h
  have h2 : (Except.error "connection failed" :
      Except String (List CalEvent)) = .ok [healthyEvent] := h
  exact Except.noConfusion h2

/-- Witness for fetch_multi_error_propagates at the concrete scenario. -/
theorem fetch_multi_error_propagates_witness :
    exceptIsError (fetch_events_for_day_multi_ics exUrls exFetchOne) = true :=
  (fetch_multi_error_propagates exUrls exFetchOne
    ⟨("bad", "u2"), by decide, by decide⟩).1

/-! ## Dedup across sources (C6) -/

theorem dedupeGo_key_not_seen :
    ∀ (l : List CalEvent) (seen : List (Int × Int × String)),
      ∀ e ∈ dedupeGo seen l, eventKey e ∉ seen := by
  intro l
  induction l with
  | nil => intro seen e he; exact absurd he (by simp [dedupeGo])
  | cons x rest ih =>
    intro seen e he
    by_cases hx : eventKey x ∈ seen
    · rw [dedupeGo, if_pos hx] at he
      exact ih seen e he
    · rw [dedupeGo, if_neg hx] at he
      rcases List.mem_cons.mp he with he1 | he2
      · subst he1; exact hx
      · have := ih (eventKey x :: seen) e he2
        intro hcontra
        exact this (List.mem_cons_of_mem _ hcontra)

theorem dedupeGo_pairwise :
    ∀ (l : List CalEvent) (seen : List (Int × Int × String)),
      List.Pairwise (fun a b => eventKey a ≠ eventKey b) (dedupeGo seen l) := by
  intro l
  induction l with
  | nil => intro seen; simp [dedupeGo]
  | cons x rest ih =>
    intro seen
    by_cases hx : eventKey x ∈ seen
    · rw [dedupeGo, if_pos hx]; exact ih seen
    · rw [dedupeGo, if_neg hx]
      refine List.pairwise_cons.mpr ⟨?_, ih (eventKey x :: seen)⟩
      intro e he hcontra
      have := dedupeGo_key_not_seen rest (eventKey x :: seen) e he
      exact this (by rw [← hcontra]; exact List.mem_cons_self _ _)

theorem dedupeGo_covers :
    ∀ (l : List CalEvent) (seen : List (Int × Int × String)),
      ∀ e ∈ l, eventKey e ∈ seen
        ∨ ∃ x ∈ dedupeGo seen l, eventKey x = eventKey e := by
  intro l
  induction l with
  | nil => intro seen e he; exact absurd he (by simp)
  | cons x rest ih =>
    intro seen e he
    rcases List.mem_cons.mp he with he1 | he2
    · subst he1
      by_cases hx : eventKey e ∈ seen
      · exact Or.inl hx
      · right
        rw [dedupeGo, if_neg hx]
        exact ⟨e, List.mem_cons_self _ _, rfl⟩
    · by_cases hx : eventKey x ∈ seen
      · rw [dedupeGo, if_pos hx]
        exact ih seen e he2
      · rw [dedupeGo, if_neg hx]
        rcases ih (eventKey x :: seen) e he2 with hseen | ⟨y, hy, hye⟩
        · rcases List.mem_cons.mp hseen with h1 | h2
          · right; exact ⟨x, List.mem_cons_self _ _, h1.symm⟩
          · exact Or.inl h2
        · right; exact ⟨y, List.mem_cons_of_mem _ hy, hye⟩

theorem eventKey_ne_symm :
    Symmetric (fun a b : CalEvent => eventKey a ≠ eventKey b) := by
  intro a b h
  exact fun hc => h hc.symm

theorem mergeEvents_perm_dedupe (all : List CalEvent) :
    List.Perm (mergeEvents all) (dedupeEvents all) :=
  List.perm_insertionSort startLe (dedupeEvents all)

/-- Claim C6: in the merged multi-source occurrence list, any two
occurrences with an identical (start instant, end instant, title)
triple collapse to a single entry — the output of the merge contains
no two elements sharing that triple, and every input triple is
represented by some output element. -/
theorem mergeEvents_dedup_spec (all : List CalEvent) :
    List.Pairwise (fun a b => eventKey a ≠ eventKey b) (mergeEvents all)
    ∧ ∀ e ∈ all, ∃ x ∈ mergeEvents all, eventKey x = eventKey e := by
  have hperm := mergeEvents_perm_dedupe all
  constructor
  · exact (hperm.pairwise_iff (fun hxy => eventKey_ne_symm hxy)).mpr
      (dedupeGo_pairwise all [])
  · intro e he
    rcases dedupeGo_covers all [] e he with hseen | ⟨x, hx, hxe⟩
    · exact absurd hseen (by simp)
    · exact ⟨x, (hperm.mem_iff).mpr hx, hxe⟩

/-- Two events sharing the dedup triple, coming from two sources. -/
def dupEventA : CalEvent :=
  { event_id := "s1:e", title := "standup", start_utc := 100,
    end_utc := 200, source := "s1" }

/-- Same triple as dupEventA but from the second source. -/
def dupEventB : CalEvent :=
  { event_id := "s2:e", title := "standup", start_utc := 100,
    end_utc := 200, source := "s2" }

/-- Witness for mergeEvents_dedup_spec: two sources yielding an
identical (start, end, title) triple collapse to one entry. -/
theorem mergeEvents_dedup_spec_witness :
    (∃ x ∈ mergeEvents [dupEventA, dupEventB],
      eventKey x = eventKey dupEventB)
    ∧ mergeEvents [dupEventA, dupEventB] = [dupEventA] :=
  ⟨(mergeEvents_dedup_spec [dupEventA, dupEventB]).2 dupEventB
    (by decide), by decide⟩

/-! ## Sort order of the merged list (C7) -/

theorem orderedInsert_filter_start (t : Int) (x : CalEvent) :
    ∀ l : List CalEvent,
      (List.orderedInsert startLe x l).filter (fun e => e.start_utc == t)
        = if x.start_utc == t
          then x :: l.filter (fun e => e.start_utc == t)
          else l.filter (fun e => e.start_utc == t) := by
  intro l
  induction l with
  | nil =>
    rw [List.orderedInsert, List.filter_cons]
  | cons y ys ih =>
    rw [List.orderedInsert]
    by_cases hxy : startLe x y
    · rw [if_pos hxy, List.filter_cons]
    · rw [if_neg hxy, List.filter_cons]
      simp only [ih]
      rw [List.filter_cons]
      cases hpx : (x.start_utc == t) with
      | true =>
        cases hpy : (y.start_utc == t) with
        | true =>
          exfalso
          apply hxy
          have hx' : x.start_utc = t := by simpa using hpx
          have hy' : y.start_utc = t := by simpa using hpy
          unfold startLe
          rw [hx', hy']
        | false => simp
      | false =>
        cases hpy : (y.start_utc == t) with
        | true => simp
        | false => simp

theorem sortEventsByStart_filter_start (t : Int) :
    ∀ l : List CalEvent,
      (sortEventsByStart l).filter (fun e => e.start_utc == t)
        = l.filter (fun e => e.start_utc == t) := by
  intro l
  induction l with
  | nil => rfl
  | cons x xs ih =>
    unfold sortEventsByStart at ih ⊢
    rw [List.insertionSort, orderedInsert_filter_start, ih,
      List.filter_cons]

/-- Claim C7 (amended): the deduplicated occurrence list is sorted
ascending by start instant only; no source-label or title tie-break is
applied — the sort is stable, so occurrences with equal start instants
keep their first-seen (concatenation/dedup) order, and the output
order of ties therefore depends on the order in which sources are
concatenated. -/
theorem mergeEvents_sorted_spec (all : List CalEvent) :
    List.Pairwise startLe (mergeEvents all)
    ∧ List.Perm (mergeEvents all) (dedupeEvents all)
    ∧ ∀ t : Int,
        (mergeEvents all).filter (fun e => e.start_utc == t)
          = (dedupeEvents all).filter (fun e => e.start_utc == t) := by
  refine ⟨List.sorted_insertionSort startLe (dedupeEvents all),
    mergeEvents_perm_dedupe all, ?_⟩
  intro t
  exact sortEventsByStart_filter_start t (dedupeEvents all)

/-- A tie event listed first, with the lexicographically larger source
label and title. -/
def evTieA : CalEvent :=
  { event_id := "1", title := "zeta", start_utc := 100, end_utc := 200,
    source := "beta" }

/-- A tie event listed second, with the smaller source label and
title. -/
def evTieB : CalEvent :=
  { event_id := "2", title := "alpha", start_utc := 100, end_utc := 200,
    source := "alpha" }

/-- Claim C7 counterexample: two occurrences with equal start instants
stay in concatenation order even though the claimed source-then-title
tie-break would put the second one first, and swapping the
concatenation order changes the output, so the order is not
deterministic regardless of concatenation order. -/
theorem mergeEvents_tiebreak_counterexample :
    mergeEvents [evTieA, evTieB] = [evTieA, evTieB]
    ∧ mergeEvents [evTieB, evTieA] = [evTieB, evTieA]
    ∧ evTieA.start_utc = evTieB.start_utc
    ∧ evTieA.end_utc = evTieB.end_utc
    ∧ evTieB.source = "alpha" ∧ evTieA.source = "beta"
    ∧ evTieB.title = "alpha" ∧ evTieA.title = "zeta"
    ∧ mergeEvents [evTieA, evTieB] ≠ mergeEvents [evTieB, evTieA] := by
  decide

/-! ## Meal-time configuration loader (src/app/scheduler.py, C8)

`_load_meal_times` reads the raw MEAL_TIMES_JSON string.  The JSON
parsing itself is an external library (`json.loads`); the
configuration is therefore modelled at its parse outcome: the raw
value may be missing/empty, fail to parse, parse to a non-object, or
parse to an object whose entries are processed by the validation loop.
Keys and values are lists of characters so the `strip`, `lower` and
`isdigit` operations of the loop can be embedded directly. -/

/-- Parse outcome of the MEAL_TIMES_JSON configuration. -/
inductive MealConfig where
  | missing : MealConfig
  | badJson : MealConfig
  | notDict : MealConfig
  | dict : List (List Char × List Char) → MealConfig

/-- Models str.strip(): drop whitespace from both ends. -/
def stripChars (s : List Char) : List Char :=
  ((s.dropWhile Char.isWhitespace).reverse.dropWhile
    Char.isWhitespace).reverse

/-- Models str.lower() (ASCII model). -/
def lowerChars (s : List Char) : List Char := s.map Char.toLower

/-- Models str.isdigit() for the ASCII digit slices of an HH:MM time:
non-empty and all digits. -/
def isDigits (s : List Char) : Bool := !s.isEmpty && s.all Char.isDigit

/-- The basic HH:MM validation of `_load_meal_times` (scheduler.py
line 66): `len(vv) == 5 and vv[2] == ":" and vv[:2].isdigit() and
vv[3:].isdigit()`. -/
def hhmmValid (s : List Char) : Bool :=
  s.length == 5 && s.get? 2 == some ':' && isDigits (s.take 2)
    && isDigits (s.drop 3)

/-- The default mapping (scheduler.py line 51): breakfast 08:30,
fruit 12:00, lunch 14:00, dinner 19:00. -/
def defaultMealTimes : List (List Char × List Char) :=
  [("breakfast".data, "08:30".data), ("fruit".data, "12:00".data),
   ("lunch".data, "14:00".data), ("dinner".data, "19:00".data)]

/-- Python dict assignment `out[kk] = vv`: overwrite in place when the
key exists (keeping its position), append otherwise. -/
def upsert : List (List Char × List Char) → List Char → List Char
    → List (List Char × List Char)
  | [], k, v => [(k, v)]
  | (k0, v0) :: rest, k, v =>
    if k0 == k then (k0, v) :: rest else (k0, v0) :: upsert rest k v

/-- One iteration of the validation loop of `_load_meal_times`
(scheduler.py lines 62-67): normalise key and value, store the entry
when its value passes the HH:MM check, drop it otherwise. -/
def mealStep (out : List (List Char × List Char))
    (kv : List Char × List Char) : List (List Char × List Char) :=
  if hhmmValid (stripChars kv.2) then
    upsert out (lowerChars (stripChars kv.1)) (stripChars kv.2)
  else out

/-- The whole validation loop over the parsed object's entries. -/
def mealEntriesFold (entries : List (List Char × List Char)) :
    List (List Char × List Char) :=
  entries.foldl mealStep []

/-- Embeds `_load_meal_times` (scheduler.py line 45): defaults when
the configuration is missing, does not parse, or is not an object
(the try/except and isinstance branches); otherwise the validated
entries, falling back to the defaults when none survives
(`return out or defaults`). -/
def load_meal_times : MealConfig → List (List Char × List Char)
  | .missing => defaultMealTimes
  | .badJson => defaultMealTimes
  | .notDict => defaultMealTimes
  | .dict entries =>
    let out := mealEntriesFold entries
    if out.isEmpty then defaultMealTimes else out

theorem upsert_mem_keys (l : List (List Char × List Char))
    (k v : List Char) :
    k ∈ (upsert l k v).map Prod.fst := by
  induction l with
  | nil => simp [upsert]
  | cons kv rest ih =>
    obtain ⟨k0, v0⟩ := kv
    rw [upsert]
    by_cases h : k0 == k
    · rw [if_pos h]
      simp only [List.map_cons, List.mem_cons]
      left
      have : k0 = k := by simpa using h
      exact this.symm
    · rw [if_neg h]
      simp only [List.map_cons, List.mem_cons]
      exact Or.inr ih

theorem upsert_keys_mono (l : List (List Char × List Char))
    (k v k' : List Char) (h : k' ∈ l.map Prod.fst) :
    k' ∈ (upsert l k v).map Prod.fst := by
  induction l with
  | nil => exact absurd h (by simp)
  | cons kv rest ih =>
    obtain ⟨k0, v0⟩ := kv
    rw [upsert]
    by_cases hk : k0 == k
    · rw [if_pos hk]
      simpa using h
    · rw [if_neg hk]
      simp only [List.map_cons, List.mem_cons] at h ⊢
      rcases h with h1 | h2
      · exact Or.inl h1
      · exact Or.inr (ih h2)

theorem upsert_values_valid (l : List (List Char × List Char))
    (k v : List Char) (hl : ∀ kv ∈ l, hhmmValid kv.2 = true)
    (hv : hhmmValid v = true) :
    ∀ kv ∈ upsert l k v, hhmmValid kv.2 = true := by
  induction l with
  | nil =>
    intro kv hkv
    rw [upsert] at hkv
    rcases List.mem_cons.mp hkv with h1 | h2
    · subst h1; exact hv
    · exact absurd h2 (by simp)
  | cons kv0 rest ih =>
    obtain ⟨k0, v0⟩ := kv0
    intro kv hkv
    rw [upsert] at hkv
    by_cases hk : k0 == k
    · rw [if_pos hk] at hkv
      rcases List.mem_cons.mp hkv with h1 | h2
      · subst h1; exact hv
      · exact hl kv (List.mem_cons_of_mem _ h2)
    · rw [if_neg hk] at hkv
      rcases List.mem_cons.mp hkv with h1 | h2
      · subst h1; exact hl (k0, v0) (List.mem_cons_self _ _)
      · exact ih (fun x hx => hl x (List.mem_cons_of_mem _ hx)) kv h2

theorem mealStep_values_valid (acc : List (List Char × List Char))
    (kv : List Char × List Char)
    (h : ∀ x ∈ acc, hhmmValid x.2 = true) :
    ∀ x ∈ mealStep acc kv, hhmmValid x.2 = true := by
  unfold mealStep
  by_cases hv : hhmmValid (stripChars kv.2) = true
  · rw [if_pos hv]
    exact upsert_values_valid acc _ _ h hv
  · rw [if_neg hv]
    exact h

theorem mealStep_keys_mono (acc : List (List Char × List Char))
    (kv : List Char × List Char) (k' : List Char)
    (h : k' ∈ acc.map Prod.fst) :
    k' ∈ (mealStep acc kv).map Prod.fst := by
  unfold mealStep
  by_cases hv : hhmmValid (stripChars kv.2) = true
  · rw [if_pos hv]
    exact upsert_keys_mono acc _ _ k' h
  · rw [if_neg hv]
    exact h

theorem foldl_mealStep_values_valid :
    ∀ (entries acc : List (List Char × List Char)),
      (∀ x ∈ acc, hhmmValid x.2 = true)
      → ∀ x ∈ entries.foldl mealStep acc, hhmmValid x.2 = true := by
  intro entries
  induction entries with
  | nil => intro acc h; simpa using h
  | cons e rest ih =>
    intro acc h
    rw [List.foldl_cons]
    exact ih _ (mealStep_values_valid acc e h)

theorem foldl_mealStep_keys_mono :
    ∀ (entries acc : List (List Char × List Char)) (k' : List Char),
      k' ∈ acc.map Prod.fst
      → k' ∈ (entries.foldl mealStep acc).map Prod.fst := by
  intro entries
  induction entries with
  | nil => intro acc k' h; simpa using h
  | cons e rest ih =>
    intro acc k' h
    rw [List.foldl_cons]
    exact ih _ k' (mealStep_keys_mono acc e k' h)

theorem foldl_mealStep_mem_keys :
    ∀ (entries acc : List (List Char × List Char))
      (kv : List Char × List Char), kv ∈ entries
      → hhmmValid (stripChars kv.2) = true
      → lowerChars (stripChars kv.1)
          ∈ (entries.foldl mealStep acc).map Prod.fst := by
  intro entries
  induction entries with
  | nil => intro acc kv h; exact absurd h (by simp)
  | cons e rest ih =>
    intro acc kv hmem hval
    rw [List.foldl_cons]
    rcases List.mem_cons.mp hmem with h1 | h2
    · subst h1
      apply foldl_mealStep_keys_mono rest
      unfold mealStep
      rw [if_pos hval]
      exact upsert_mem_keys acc _ _
    · exact ih _ kv h2 hval

/-- Claim C8 (amended): loading the meal-time configuration never
aborts and never yields an empty or malformed mapping.  With a missing
configuration, unparsable JSON, a non-object value, or no surviving
valid entry, the full default mapping breakfast 08:30, fruit 12:00,
lunch 14:00, dinner 19:00 is used.  Otherwise malformed entries are
dropped individually — they are NOT replaced by per-entry defaults —
and the valid entries are kept (keys stripped and lower-cased): every
value of the result passes the HH:MM shape check and every valid input
entry's key is present in the result. -/
theorem load_meal_times_spec (cfg : MealConfig) :
    load_meal_times .missing = defaultMealTimes
    ∧ load_meal_times .badJson = defaultMealTimes
    ∧ load_meal_times .notDict = defaultMealTimes
    ∧ (∀ entries, mealEntriesFold entries = []
        → load_meal_times (.dict entries) = defaultMealTimes)
    ∧ load_meal_times cfg ≠ []
    ∧ (∀ kv ∈ load_meal_times cfg, hhmmValid kv.2 = true)
    ∧ (∀ entries kv, kv ∈ entries
        → hhmmValid (stripChars kv.2) = true
        → lowerChars (stripChars kv.1)
            ∈ (load_meal_times (.dict entries)).map Prod.fst) := by
  have hkeymem : ∀ entries (kv : List Char × List Char), kv ∈ entries
      → hhmmValid (stripChars kv.2) = true
      → lowerChars (stripChars kv.1)
          ∈ (load_meal_times (.dict entries)).map Prod.fst := by
    intro entries kv hmem hval
    have hk := foldl_mealStep_mem_keys entries [] kv hmem hval
    rw [load_meal_times]
    cases hfold : mealEntriesFold entries with
    | nil =>
      rw [mealEntriesFold] at hfold
      rw [hfold] at hk
      exact absurd hk (by simp)
    | cons a as =>
      rw [mealEntriesFold] at hfold
      rw [hfold] at hk
      exact hk
  have hdefaults : ∀ x ∈ defaultMealTimes, hhmmValid x.2 = true := by
    decide
  refine ⟨rfl, rfl, rfl, ?_, ?_, ?_, hkeymem⟩
  · intro entries h
    rw [load_meal_times, h]
    rfl
  · cases cfg with
    | missing => decide
    | badJson => decide
    | notDict => decide
    | dict entries =>
      rw [load_meal_times]
      cases hfold : mealEntriesFold entries with
      | nil => decide
      | cons a as =>
        intro hc
        exact List.noConfusion hc
  · cases cfg with
    | missing => exact hdefaults
    | badJson => exact hdefaults
    | notDict => exact hdefaults
    | dict entries =>
      intro kv hkv
      rw [load_meal_times] at hkv
      by_cases hemp : (mealEntriesFold entries).isEmpty = true
      · rw [if_pos hemp] at hkv
        exact hdefaults kv hkv
      · rw [if_neg hemp] at hkv
        exact foldl_mealStep_values_valid entries [] (by simp) kv hkv

/-- A parsed configuration with one malformed entry (breakfast) and
one valid entry (lunch). -/
def mealExEntries : List (List Char × List Char) :=
  [("breakfast".data, "oops".data), ("lunch".data, "13:00".data)]

/-- Claim C8 counterexample: with the parsed configuration
{"breakfast": "oops", "lunch": "13:00"}, the malformed breakfast entry
is dropped but NOT replaced by the default breakfast 08:30 — the
result is only the lunch entry and contains no breakfast key at all,
refuting the claim that malformed entries are replaced by defaults. -/
theorem load_meal_times_counterexample :
    load_meal_times (.dict mealExEntries)
      = [("lunch".data, "13:00".data)]
    ∧ ¬ "breakfast".data
        ∈ (load_meal_times (.dict mealExEntries)).map Prod.fst := by
  decide

/-- Witness for load_meal_times_spec: a valid (upper-case, padded)
entry survives the load with its normalised key. -/
theorem load_meal_times_spec_witness :
    lowerChars (stripChars "LUNCH ".data)
      ∈ (load_meal_times
          (.dict [("LUNCH ".data, "13:00".data)])).map Prod.fst :=
  (load_meal_times_spec
      (.dict [("LUNCH ".data, "13:00".data)])).2.2.2.2.2.2
    [("LUNCH ".data, "13:00".data)] ("LUNCH ".data, "13:00".data)
    (by decide) (by decide)

/-- The single row the rebuild creates for user 1, day 0, from
healthyEvent. -/
def rebuiltRow : EventRow :=
  { user_id := 1, day := 0, event_number := 1,
    google_event_id := "good:1", title := "t [good]",
    start_dt := 100, end_dt := 200 }

/-- Witness for build_daily_event_index_spec: a pre-existing partition
row that survives the rebuild is one of the freshly inserted rows. -/
theorem build_daily_event_index_spec_witness :
    rebuiltRow ∈ numberRows 1 0 1 (sortEventsByStart [healthyEvent]) :=
  (build_daily_event_index_spec [rebuiltRow] 1 0 [healthyEvent]).2.2.2.2
    rebuiltRow (by decide) (by decide) (by decide)
